import Mathlib

set_option maxRecDepth 8000

/-!
Verification development for the disbahn reconciliation engine.

This file gives a shallow embedding of the relevant parts of the source:
  - src/database/models.rs  (Post, NewPost and the u64 / i64 byte reinterpretation)
  - src/lib.rs              (validity_time_to_timestamp, html_to_discord_markdown,
                             icon maps, item_to_embed, refresh_item, refresh)
  - src/bin/disbahn.rs      (the daemon sleep computation)
and proves the specification claims about them.

Machine integers are modelled as Nat / Int with explicit ranges.  Stateful
code (the SQLite posts table, the Discord webhook) is modelled by explicit
state passing: the table is a list of rows, the webhook is a trace of sink
calls, and fallible external calls are driven by an explicit per-item
environment.  Rust panics are modelled as a distinct outcome that is not
caught by the per-item error handler, mirroring the fact that `unwrap`
unwinds past the `if let Err` boundary in `refresh`.
-/

namespace Disbahn

/-! ## Integer reinterpretation (src/database/models.rs)

`i64::from_le_bytes(u64::to_le_bytes(n))` reinterprets the 64 bits of an
unsigned value as a signed value and vice versa.  On Nat / Int this is the
usual two-complement correspondence. -/

/-- Models `i64::from_le_bytes(n.to_le_bytes())` for a `u64` value `n < 2 ^ 64`. -/
def u64ToI64 (n : Nat) : Int :=
  if n < 2 ^ 63 then (n : Int) else (n : Int) - 2 ^ 64

/-- Models `u64::from_le_bytes(i.to_le_bytes())` for an `i64` value
`-2 ^ 63 ≤ i < 2 ^ 63`. -/
def i64ToU64 (i : Int) : Nat :=
  if 0 ≤ i then i.toNat else (i + 2 ^ 64).toNat

/-- A row of the `posts` table (struct `Post` in src/database/models.rs).
`last_updated` is a `NaiveDateTime`; it is modelled as seconds since the
epoch, which preserves ordering and equality.  The insertable struct
`NewPost` has exactly the same fields, so one structure serves for both. -/
structure Post where
  announcement_id : String
  webhook_id : Int
  message_id : Int
  last_updated : Int
deriving DecidableEq, Repr

/-- Models `NewPost::new` (src/database/models.rs): the `u64` webhook and
message identifiers are stored as `i64` through little-endian byte
reinterpretation. -/
def NewPost.new (announcement_id : String) (webhook_id message_id : Nat)
    (last_updated : Int) : Post :=
  ⟨announcement_id, u64ToI64 webhook_id, u64ToI64 message_id, last_updated⟩

/-- Models the getter `Post::webhook_id`, which reinterprets the stored
`i64` back into a `u64` `WebhookId`. -/
def Post.webhookIdU (p : Post) : Nat := i64ToU64 p.webhook_id

/-- Models the getter `Post::message_id`, which reinterprets the stored
`i64` back into a `u64` `MessageId`. -/
def Post.messageIdU (p : Post) : Nat := i64ToU64 p.message_id

/-! ## Daemon sleep computation (src/bin/disbahn.rs) -/

/-- `const DAEMON_INTERVAL_SECS: i64 = 300;` -/
def DAEMON_INTERVAL_SECS : Int := 300

/-- Models `(now / DAEMON_INTERVAL_SECS + 1) * DAEMON_INTERVAL_SECS - now`.
Rust `i64` division truncates toward zero, which is `Int.tdiv`. -/
def sleep_secs (now : Int) : Int :=
  (Int.tdiv now DAEMON_INTERVAL_SECS + 1) * DAEMON_INTERVAL_SECS - now

/-! ## Civil calendar arithmetic

Supporting definitions for the model of
`chrono::NaiveDateTime::parse_from_str` and of
`chrono_tz::Europe::Berlin.from_local_datetime`. -/

/-- Proleptic Gregorian leap year, as used by chrono. -/
def isLeapYear (y : Int) : Bool :=
  Int.emod y 4 == 0 && (Int.emod y 100 != 0 || Int.emod y 400 == 0)

/-- Days in a month of the proleptic Gregorian calendar. -/
def daysInMonth (y : Int) (m : Nat) : Nat :=
  if m == 2 then (if isLeapYear y then 29 else 28)
  else if m == 4 || m == 6 || m == 9 || m == 11 then 30
  else 31

/-- Days since 1970-01-01 of the civil date `y-m-d` (standard
days-from-civil algorithm over the proleptic Gregorian calendar). -/
def daysFromCivil (y : Int) (m d : Nat) : Int :=
  let y2 : Int := if m ≤ 2 then y - 1 else y
  let era : Int := Int.fdiv y2 400
  let yoe : Int := y2 - era * 400
  let mp : Nat := if 3 ≤ m then m - 3 else m + 9
  let doy : Int := Int.ofNat ((153 * mp + 2) / 5 + d - 1)
  let doe : Int := yoe * 365 + Int.fdiv yoe 4 - Int.fdiv yoe 100 + doy
  era * 146097 + doe - 719468

/-- A parsed naive date-time (chrono `NaiveDateTime` restricted to whole
seconds, which is all the format `%Y-%m-%d %H:%M:%S` can produce). -/
structure NaiveDT where
  year : Int
  month : Nat
  day : Nat
  hour : Nat
  minute : Nat
  second : Nat
deriving DecidableEq, Repr

/-- Seconds since the epoch of a naive date-time read as if it were UTC
(the value `NaiveDateTime::timestamp` would give).  A parsed second of 60
is the chrono leap-second representation, whose timestamp equals that of
second 59. -/
def naiveSecs (dt : NaiveDT) : Int :=
  daysFromCivil dt.year dt.month dt.day * 86400
    + (dt.hour * 3600 + dt.minute * 60 + min dt.second 59 : Nat)

/-! ## Unicode whitespace and the naive date-time format parser -/

/-- Unicode White_Space, the class matched both by Rust `char::is_whitespace`
(used by chrono to skip whitespace) and by the regex class `\s`. -/
def isWsp (c : Char) : Bool :=
  let n := c.toNat
  (9 ≤ n && n ≤ 13) || n == 32 || n == 133 || n == 160 || n == 5760
    || (8192 ≤ n && n ≤ 8202) || n == 8232 || n == 8233 || n == 8239
    || n == 8287 || n == 12288

/-- Drop leading whitespace (Rust `str::trim_start`, regex `\s*` which in
these patterns is always followed by a non-whitespace literal and is
therefore effectively possessive). -/
def skipWs (cs : List Char) : List Char := cs.dropWhile isWsp

/-- Consume up to `w` further digits after an accumulator (the maximal-munch
digit scanner of chrono `scan::number`). -/
def scanDigitsAux : Nat → Nat → List Char → Nat × List Char
  | 0, acc, cs => (acc, cs)
  | _ + 1, acc, [] => (acc, [])
  | w + 1, acc, c :: rest =>
    if c.isDigit then scanDigitsAux w (acc * 10 + (c.toNat - 48)) rest
    else (acc, c :: rest)

/-- Consume between 1 and `maxw` digits (chrono `scan::number(s, 1, maxw)`). -/
def scanNumber (maxw : Nat) : List Char → Option (Nat × List Char)
  | [] => none
  | c :: rest =>
    if c.isDigit then some (scanDigitsAux (maxw - 1) (c.toNat - 48) rest)
    else none

/-- The `%Y` item: leading whitespace skipped, then an optional sign; with a
sign the digit run is unbounded, without one it is limited to width 4
(chrono `format::parse` for `Numeric::Year`). -/
def scanYear (cs : List Char) : Option (Int × List Char) :=
  match skipWs cs with
  | '-' :: rest => (scanNumber (rest.length + 1) rest).map fun vr => (-(vr.1 : Int), vr.2)
  | '+' :: rest => (scanNumber (rest.length + 1) rest).map fun vr => ((vr.1 : Int), vr.2)
  | cs2 => (scanNumber 4 cs2).map fun vr => ((vr.1 : Int), vr.2)

/-- A two-digit numeric item (`%m`, `%d`, `%H`, `%M`, `%S`): leading
whitespace skipped, then 1 or 2 digits. -/
def scanNum2 (cs : List Char) : Option (Nat × List Char) :=
  scanNumber 2 (skipWs cs)

/-- An exact literal character of the format string. -/
def scanLit (c : Char) : List Char → Option (List Char)
  | x :: rest => if x == c then some rest else none
  | [] => none

/-- Models `NaiveDateTime::parse_from_str(input, "%Y-%m-%d %H:%M:%S")`:
items are parsed in order, trailing input is rejected, and the resolved
fields are validated (month 1..=12, day within the month, hour ≤ 23,
minute ≤ 59, second ≤ 60 with 60 denoting a leap second).  The year bound
is the chrono `NaiveDate` year range; every input relevant to the claims
is far inside it. -/
def parse_from_str (s : String) : Option NaiveDT := do
  let (y, r1) ← scanYear s.data
  let r2 ← scanLit '-' r1
  let (mo, r3) ← scanNum2 r2
  let r4 ← scanLit '-' r3
  let (d, r5) ← scanNum2 r4
  let r6 := skipWs r5
  let (h, r7) ← scanNum2 r6
  let r8 ← scanLit ':' r7
  let (mi, r9) ← scanNum2 r8
  let r10 ← scanLit ':' r9
  let (sec, r11) ← scanNum2 r10
  if !r11.isEmpty then none
  else if y < -262144 || 262143 < y then none
  else if mo < 1 || 12 < mo then none
  else if d < 1 || daysInMonth y mo < d then none
  else if 23 < h || 59 < mi || 60 < sec then none
  else some ⟨y, mo, d, h, mi, sec⟩

/-! ## Europe/Berlin local-time resolution -/

/-- chrono `LocalResult`: a naive local time can denote no instant (inside
a daylight-saving gap), exactly one, or two (during the fall-back hour). -/
inductive LocalResult where
  | missing
  | single (t : Int)
  | ambiguous (t1 t2 : Int)
deriving DecidableEq, Repr

/-- 01:00 UTC on the last Sunday of month `m` (which has 31 days) of year
`y`, as seconds since the epoch.  1970-01-01 was a Thursday, so day number
`n` is a Sunday iff `(n + 4) % 7 = 0`. -/
def lastSundayUtc1 (y : Int) (m : Nat) : Int :=
  let d31 := daysFromCivil y m 31
  (d31 - Int.emod (d31 + 4) 7) * 86400 + 3600

/-- Start of Berlin daylight-saving time in year `y` (last Sunday of March,
01:00 UTC). -/
def berlinDstStart (y : Int) : Int := lastSundayUtc1 y 3

/-- End of Berlin daylight-saving time in year `y` (last Sunday of October,
01:00 UTC). -/
def berlinDstEnd (y : Int) : Int := lastSundayUtc1 y 10

/-- Models `chrono_tz::Europe::Berlin.from_local_datetime`.  The timezone
rules are those of the EU regime in force since 1996 (CET = UTC+1 outside
the DST window, CEST = UTC+2 inside it), which covers every instant the
claims mention.  A candidate instant for each offset is checked against
the window; both valid gives the ambiguous fall-back hour, neither valid
gives the spring-forward gap. -/
def berlinFromLocal (dt : NaiveDT) : LocalResult :=
  let l := naiveSecs dt
  let tWinter := l - 3600
  let tSummer := l - 7200
  let s := berlinDstStart dt.year
  let e := berlinDstEnd dt.year
  let winterOk : Bool := tWinter < s || e ≤ tWinter
  let summerOk : Bool := s ≤ tSummer && tSummer < e
  match winterOk, summerOk with
  | true, true => .ambiguous tSummer tWinter
  | true, false => .single tWinter
  | false, true => .single tSummer
  | false, false => .missing

/-- Result of `DisbahnClient::validity_time_to_timestamp`.  `unwrapFails`
models the panic of `LocalResult::unwrap` on a `None` or `Ambiguous`
local time; a panic is not an `anyhow::Error` and unwinds past every
`if let Err` in the program. -/
inductive VResult where
  | ok (t : Int)
  | parseError
  | unwrapFails
deriving DecidableEq, Repr

/-- Models `DisbahnClient::validity_time_to_timestamp` (src/lib.rs 41-48):
parse the naive date-time, resolve it in Europe/Berlin, `unwrap`, and take
the timestamp. -/
def validity_time_to_timestamp (input : String) : VResult :=
  match parse_from_str input with
  | none => .parseError
  | some dt =>
    match berlinFromLocal dt with
    | .single t => .ok t
    | _ => .unwrapFails

/-! ## HTML to Discord markdown (src/lib.rs 50-63)

The five regex rewrites are modelled as direct string scanners with the
exact semantics of the Rust regex crate on these patterns (leftmost-first
matching, greedy `.*` that does not cross a newline, lazy `(.|\n)*?`,
case-insensitive tag letters, `\s` = Unicode White_Space).  Case folding
is modelled for ASCII letters, which is exact for the tag letters b, r, i
and s up to exotic Unicode foldings no claim exercises. -/

/-- ASCII lowercase fold, used for the case-insensitive tag letters. -/
def lowerAscii (c : Char) : Char :=
  if 'A' ≤ c && c ≤ 'Z' then Char.ofNat (c.toNat + 32) else c

/-- Match `<br\s*/>` (the strict self-closing break of the first regex) at
the head of the input, returning the rest. -/
def matchBrStrict : List Char → Option (List Char)
  | c0 :: rest0 =>
    if c0 == '<' then
      match rest0 with
      | c1 :: rest1 =>
        if lowerAscii c1 == 'b' then
          match rest1 with
          | c2 :: rest2 =>
            if lowerAscii c2 == 'r' then
              match skipWs rest2 with
              | d0 :: rest3 =>
                if d0 == '/' then
                  match rest3 with
                  | d1 :: rest4 => if d1 == '>' then some rest4 else none
                  | [] => none
                else none
              | [] => none
            else none
          | [] => none
        else none
      | [] => none
    else none
  | [] => none

/-- Match `<br\s*/>\s*<br\s*/>` at the head of the input, returning the
rest. -/
def matchTimesTail (cs : List Char) : Option (List Char) := do
  let r1 ← matchBrStrict cs
  matchBrStrict (skipWs r1)

/-- The rest of the input after the leftmost-first match of
`^.*<br\s*/>\s*<br\s*/>` (case-insensitive), or `none` if there is no
match.  The greedy `.*` cannot cross a newline and prefers the longest
prefix whose end still lets the two break markers match, so the deepest
viable start wins. -/
def findLastRest : List Char → Option (List Char)
  | [] => matchTimesTail []
  | c :: rest =>
    if c == '\n' then matchTimesTail (c :: rest)
    else
      match findLastRest rest with
      | some r => some r
      | none => matchTimesTail (c :: rest)

/-- Step 1 of `html_to_discord_markdown`: `re_times.replace(input, "")`. -/
def stripTimes (cs : List Char) : List Char := (findLastRest cs).getD cs

/-- Match `<X\s*>` (open tag, case-insensitive letter `tag`) at the head. -/
def matchOpenTag (tag : Char) : List Char → Option (List Char)
  | c0 :: rest0 =>
    if c0 == '<' then
      match rest0 with
      | c1 :: rest1 =>
        if lowerAscii c1 == tag then
          match skipWs rest1 with
          | d0 :: rest2 => if d0 == '>' then some rest2 else none
          | [] => none
        else none
      | [] => none
    else none
  | [] => none

/-- Match `</X\s*>` (close tag) at the head. -/
def matchCloseTag (tag : Char) : List Char → Option (List Char)
  | c0 :: rest0 =>
    if c0 == '<' then
      match rest0 with
      | c1 :: rest1 =>
        if c1 == '/' then
          match rest1 with
          | c2 :: rest2 =>
            if lowerAscii c2 == tag then
              match skipWs rest2 with
              | d0 :: rest3 => if d0 == '>' then some rest3 else none
              | [] => none
            else none
          | [] => none
        else none
      | [] => none
    else none
  | [] => none

/-- Split at the earliest close tag (the lazy `(.|\n)*?` takes the shortest
content): returns the content before the close tag and the rest after it. -/
def findCloseSplit (tag : Char) : List Char → Option (List Char × List Char)
  | [] => none
  | c :: rest =>
    match matchCloseTag tag (c :: rest) with
    | some r => some ([], r)
    | none =>
      match findCloseSplit tag rest with
      | some cr => some (c :: cr.1, cr.2)
      | none => none

/-- One `replace_all` pass for `<X\s*>((.|\n)*?)</X\s*>` with replacement
`delim $1 delim`.  The fuel is the input length; every step consumes at
least one character, so that fuel always suffices. -/
def replaceTagAux (tag : Char) (delim : List Char) : Nat → List Char → List Char
  | 0, cs => cs
  | _ + 1, [] => []
  | fuel + 1, c :: rest =>
    match matchOpenTag tag (c :: rest) with
    | some afterOpen =>
      match findCloseSplit tag afterOpen with
      | some cr => delim ++ cr.1 ++ delim ++ replaceTagAux tag delim fuel cr.2
      | none => c :: replaceTagAux tag delim fuel rest
    | none => c :: replaceTagAux tag delim fuel rest

/-- `re.replace_all(input, "delim$1delim")` for a tag regex. -/
def replaceTag (tag : Char) (delim : List Char) (cs : List Char) : List Char :=
  replaceTagAux tag delim cs.length cs

/-- Match `<br\s*/?>` (the relaxed break of `re_newline`) at the head. -/
def matchBrAny : List Char → Option (List Char)
  | c0 :: rest0 =>
    if c0 == '<' then
      match rest0 with
      | c1 :: rest1 =>
        if lowerAscii c1 == 'b' then
          match rest1 with
          | c2 :: rest2 =>
            if lowerAscii c2 == 'r' then
              match skipWs rest2 with
              | '/' :: '>' :: r => some r
              | '>' :: r => some r
              | _ => none
            else none
          | [] => none
        else none
      | [] => none
    else none
  | [] => none

/-- `re_newline.replace_all(input, "\n")`. -/
def replaceBrAux : Nat → List Char → List Char
  | 0, cs => cs
  | _ + 1, [] => []
  | fuel + 1, c :: rest =>
    match matchBrAny (c :: rest) with
    | some r => '\n' :: replaceBrAux fuel r
    | none => c :: replaceBrAux fuel rest

/-- `re_newline.replace_all(input, "\n")` with sufficient fuel. -/
def replaceBr (cs : List Char) : List Char := replaceBrAux cs.length cs

/-- Models `DisbahnClient::html_to_discord_markdown` (src/lib.rs 50-63):
strip the duplicate-timestamp prefix, then rewrite bold, italic and
strikethrough spans, then turn break markers into newlines. -/
def html_to_discord_markdown (input : String) : String :=
  let cs := stripTimes input.data
  let cs := replaceTag 'b' ['*', '*'] cs
  let cs := replaceTag 'i' ['*'] cs
  let cs := replaceTag 's' ['~', '~'] cs
  let cs := replaceBr cs
  ⟨cs⟩

/-- String-level wrapper of the first transform step, for the claims that
speak about that step alone. -/
def stripTimesStr (s : String) : String := ⟨stripTimes s.data⟩

/-- The character list of a pair of consecutive self-closing break
markers, the shape the first transform step looks for. -/
def brbr : List Char := ['<', 'b', 'r', '/', '>', '<', 'b', 'r', '/', '>']

/-! ## Icon maps (src/lib.rs 65-79) -/

/-- Models `DisbahnClient::icon_name_to_url`. -/
def icon_name_to_url (name : String) : String :=
  if name == "HIM1" then
    "https://upload.wikimedia.org/wikipedia/commons/thumb/a/a9/Zeichen_123_-_Arbeitsstelle%2C_StVO_2013.svg/273px-Zeichen_123_-_Arbeitsstelle%2C_StVO_2013.svg.png"
  else if name == "HIM2" then
    "https://upload.wikimedia.org/wikipedia/commons/thumb/0/02/Zeichen_101_-_Gefahrstelle%2C_StVO_1970.svg/273px-Zeichen_101_-_Gefahrstelle%2C_StVO_1970.svg.png"
  else
    "https://upload.wikimedia.org/wikipedia/commons/thumb/5/56/Zeichen_365-61_-_Informationsstelle%2C_StVO_2013.svg/240px-Zeichen_365-61_-_Informationsstelle%2C_StVO_2013.svg.png"

/-- Models `DisbahnClient::icon_name_to_colour`. -/
def icon_name_to_colour (name : String) : Nat :=
  if name == "HIM1" then 0xf5c211
  else if name == "HIM2" then 0xc1121c
  else 0x154889

/-! ## Feed items and rendering (src/lib.rs 81-140) -/

/-- An RSS `Category`: an optional domain attribute and a name. -/
structure Category where
  domain : Option String
  name : String
deriving DecidableEq, Repr

/-- An RSS `Item` as `refresh_item` and `item_to_embed` consume it.  The
publication date is stored already parsed: `none` stands both for a
missing `pubDate` and for one that RFC-2822 parsing rejects — the two
cases make the item fail at the same points, so the distinction is not
observable by any claim. -/
structure Item where
  guid : Option String
  title : Option String
  link : Option String
  description : Option String
  categories : List Category
  pubDate : Option Int
deriving DecidableEq, Repr

/-- The payload handed to the Discord webhook, restricted to the fields
computed from the item (the constant field, footer and string formatting
of the timestamp carry no information relevant to any claim). -/
structure Embed where
  title : String
  link : String
  thumbnail : String
  colour : Nat
  description : String
  validityBegin : Int
  validityEnd : Int
  pubTs : Int
deriving DecidableEq, Repr

/-- Outcome of `item_to_embed`: a payload, an `anyhow::Error` (missing
field or time-parse error), or a panic from
`validity_time_to_timestamp`.  The panic is kept separate because it is
not caught by the per-entry `if let Err` in `refresh`. -/
inductive RenderResult where
  | ok (e : Embed)
  | fail
  | fatal
deriving DecidableEq, Repr

/-- `categories.iter().find(|c| c.domain() == Some(dom))`. -/
def findCategory (item : Item) (dom : String) : Option Category :=
  item.categories.find? fun c => c.domain == some dom

/-- Models `DisbahnClient::item_to_embed` (src/lib.rs 81-140), checking the
required fields in source order. -/
def item_to_embed (item : Item) : RenderResult :=
  match item.title with
  | none => .fail
  | some title =>
  match item.link with
  | none => .fail
  | some link =>
  match findCategory item "validityBegin" with
  | none => .fail
  | some cb =>
  match validity_time_to_timestamp cb.name with
  | .parseError => .fail
  | .unwrapFails => .fatal
  | .ok vb =>
  match findCategory item "validityEnd" with
  | none => .fail
  | some ce =>
  match validity_time_to_timestamp ce.name with
  | .parseError => .fail
  | .unwrapFails => .fatal
  | .ok ve =>
  let icon := match findCategory item "icon" with
    | some c => c.name
    | none => ""
  match item.description with
  | none => .fail
  | some desc =>
  match item.pubDate with
  | none => .fail
  | some ts =>
    .ok ⟨title, link, icon_name_to_url icon, icon_name_to_colour icon,
      html_to_discord_markdown desc, vb, ve, ts⟩

/-! ## The reconciliation engine (src/lib.rs 142-217) -/

/-- One call against the messaging sink: `webhook.execute` (create) or
`webhook.edit_message` (edit, against a `u64` message identifier). -/
inductive SinkCall where
  | create (payload : Embed)
  | edit (messageId : Nat) (payload : Embed)
deriving DecidableEq, Repr

/-- Outcome of processing one item: success, an error caught by the
per-entry boundary in `refresh`, or a panic that aborts the cycle. -/
inductive ItemOutcome where
  | ok
  | err
  | aborted
deriving DecidableEq, Repr

/-- Behaviour of the external collaborators while one item is processed:
whether the store lookup succeeds, the message identifier Discord returns
for a create (`none` models both a transport failure and a missing
message in the response), and whether edit / insert / update succeed. -/
structure ItemEnv where
  lookupOk : Bool
  createResult : Option Nat
  editOk : Bool
  insertOk : Bool
  updateOk : Bool
deriving DecidableEq, Repr

/-- An environment in which every external call succeeds. -/
def envOk (env : ItemEnv) : Prop :=
  env.lookupOk = true ∧ env.createResult.isSome = true ∧ env.editOk = true
    ∧ env.insertOk = true ∧ env.updateOk = true

instance : DecidablePred envOk := fun env => by unfold envOk; infer_instance

/-- The row filter of the lookup query: `webhook_id` equals the
reinterpreted webhook identifier and `announcement_id` equals the guid. -/
def keyMatches (wid : Nat) (g : String) (p : Post) : Bool :=
  p.webhook_id == u64ToI64 wid && p.announcement_id == g

/-- `diesel::update(posts.find((guid, webhook_id))).set(last_updated.eq(ts))`:
every row with the composite key gets the new `last_updated`, nothing else
changes.  The diesel schema declaring the primary key is generated code
outside src/, but the key columns are pinned by the `find` tuple in
src/lib.rs and by the lookup filters, and agree with the composite key
(target identifier, announcement guid) of the spec. -/
def updateStore (wid : Nat) (g : String) (ts : Int) (store : List Post) : List Post :=
  store.map fun q => if keyMatches wid g q then { q with last_updated := ts } else q

/-- Result of processing one item: the sink calls made, the store left
behind, and the outcome. -/
structure ItemStep where
  trace : List SinkCall
  store : List Post
  outcome : ItemOutcome
deriving DecidableEq, Repr

/-- Models `DisbahnClient::refresh_item` (src/lib.rs 161-217).  Control
flow follows the source: guid, then publication date, then the store
lookup; on a hit with strictly older `last_updated` render, edit, update;
on a miss render, create, insert; otherwise do nothing. -/
def refresh_item (env : ItemEnv) (wid : Nat) (store : List Post) (item : Item) : ItemStep :=
  match item.guid with
  | none => ⟨[], store, .err⟩
  | some g =>
  match item.pubDate with
  | none => ⟨[], store, .err⟩
  | some ts =>
  if env.lookupOk = false then ⟨[], store, .err⟩
  else
  match store.find? (keyMatches wid g) with
  | some p =>
    if p.last_updated < ts then
      match item_to_embed item with
      | .fatal => ⟨[], store, .aborted⟩
      | .fail => ⟨[], store, .err⟩
      | .ok e =>
        if env.editOk = false then ⟨[SinkCall.edit (i64ToU64 p.message_id) e], store, .err⟩
        else if env.updateOk = false then
          ⟨[SinkCall.edit (i64ToU64 p.message_id) e], store, .err⟩
        else
          ⟨[SinkCall.edit (i64ToU64 p.message_id) e], updateStore wid g ts store, .ok⟩
    else ⟨[], store, .ok⟩
  | none =>
    match item_to_embed item with
    | .fatal => ⟨[], store, .aborted⟩
    | .fail => ⟨[], store, .err⟩
    | .ok e =>
      match env.createResult with
      | none => ⟨[SinkCall.create e], store, .err⟩
      | some mid =>
        if env.insertOk = false then ⟨[SinkCall.create e], store, .err⟩
        else ⟨[SinkCall.create e], store ++ [NewPost.new g wid mid ts], .ok⟩

/-- Result of one pass over the feed items. -/
structure CycleResult where
  trace : List SinkCall
  store : List Post
  aborted : Bool
deriving DecidableEq, Repr

/-- The per-item loop of `DisbahnClient::refresh` (src/lib.rs 151-155):
an `err` outcome is caught and logged and the loop continues; a panic
unwinds and aborts the cycle. -/
def refreshItems (wid : Nat) : List (ItemEnv × Item) → List Post → CycleResult
  | [], store => ⟨[], store, false⟩
  | (env, item) :: rest, store =>
    if (refresh_item env wid store item).outcome = ItemOutcome.aborted then
      ⟨(refresh_item env wid store item).trace, (refresh_item env wid store item).store, true⟩
    else
      ⟨(refresh_item env wid store item).trace
          ++ (refreshItems wid rest (refresh_item env wid store item).store).trace,
        (refreshItems wid rest (refresh_item env wid store item).store).store,
        (refreshItems wid rest (refresh_item env wid store item).store).aborted⟩

/-- Result of a whole cycle including the feed fetch. -/
structure RefreshResult where
  cycle : CycleResult
  feedError : Bool
deriving DecidableEq, Repr

/-- Models `DisbahnClient::refresh` (src/lib.rs 142-159): a feed
parse/fetch failure (`feed = none`) aborts the cycle before any item is
processed; otherwise every item is processed in feed order. -/
def refresh (wid : Nat) (feed : Option (List (ItemEnv × Item))) (store : List Post) :
    RefreshResult :=
  match feed with
  | none => ⟨⟨[], store, false⟩, true⟩
  | some pairs => ⟨refreshItems wid pairs store, false⟩

/-- The store left by a sequence of reconciliation cycles. -/
def refreshSeq (wid : Nat) : List (List (ItemEnv × Item)) → List Post → List Post
  | [], store => store
  | pairs :: rest, store => refreshSeq wid rest (refreshItems wid pairs store).store

/-! ## Predicates used by the claims -/

/-- Two rows share the composite key (target identifier, announcement
guid). -/
def sameKey (p q : Post) : Prop :=
  p.announcement_id = q.announcement_id ∧ p.webhook_id = q.webhook_id

instance : ∀ p q, Decidable (sameKey p q) := fun p q => by unfold sameKey; infer_instance

/-- At most one row per composite key. -/
def atMostOne (store : List Post) : Prop :=
  store.Pairwise fun p q => ¬sameKey p q

instance : DecidablePred atMostOne := fun store => by
  unfold atMostOne; exact List.instDecidablePairwise store

/-- An item is settled against a store: processing it performs no sink
call and leaves the store unchanged, for every successful environment.
It is either structurally broken before the lookup, or covered by a
record at least as new as its publication date, or unable to render. -/
def settled (wid : Nat) (store : List Post) (item : Item) : Prop :=
  item.guid = none ∨ item.pubDate = none ∨
    (∃ g ts, item.guid = some g ∧ item.pubDate = some ts ∧
      ((∃ p, store.find? (keyMatches wid g) = some p ∧ ts ≤ p.last_updated) ∨
        (∀ e, item_to_embed item ≠ .ok e)))

/-! ## Concrete instances used by witnesses -/

/-- A well-formed feed item used by the witnesses. -/
def itemEx : Item :=
  ⟨some "guid-1", some "Title", some "https://example.org", some "Hallo",
    [⟨some "validityBegin", "2024-03-01 08:00:00"⟩,
      ⟨some "validityEnd", "2024-03-01 09:00:00"⟩],
    some 100⟩

/-- The payload `itemEx` renders to. -/
def embedEx : Embed :=
  ⟨"Title", "https://example.org", icon_name_to_url "", icon_name_to_colour "",
    "Hallo", 1709276400, 1709280000, 100⟩

/-- An all-success environment whose create call returns message 77. -/
def envEx : ItemEnv := ⟨true, some 77, true, true, true⟩

/-- A stored row for the key of `itemEx` with an earlier `last_updated`. -/
def postEx : Post := NewPost.new "guid-1" 5 77 50

/-- An item that fails before any external call: its guid is missing. -/
def badItemEx : Item := ⟨none, none, none, none, [], none⟩

/-! ## Theorems -/

/-- C8: the description transform applied to the exact input string
`Published 2024-01-01<br/><br/><b>Delay</b> on line <i>S1</i>.` returns
exactly `**Delay** on line *S1*.`: the leading segment through the second
break marker is removed, the bold span becomes a double-asterisk span and
the italic span a single-asterisk span. -/
theorem C8_transform_example :
    html_to_discord_markdown "Published 2024-01-01<br/><br/><b>Delay</b> on line <i>S1</i>." =
      "**Delay** on line *S1*." := by
  decide

/-- C9: storing a 64-bit unsigned identifier through `NewPost::new` and
reading it back through the `Post` getters returns the original value;
the little-endian byte reinterpretation between `u64` and `i64` is a
bijection on the 64-bit range, and identifiers at or above `2 ^ 63`
round-trip exactly even though they are persisted as negative values. -/
theorem C9_roundtrip :
    (∀ n : Nat, n < 2 ^ 64 → i64ToU64 (u64ToI64 n) = n) ∧
    (∀ i : Int, -(2 ^ 63) ≤ i → i < 2 ^ 63 → u64ToI64 (i64ToU64 i) = i) ∧
    (∀ n : Nat, 2 ^ 63 ≤ n → n < 2 ^ 64 → u64ToI64 n < 0) ∧
    (∀ aid : String, ∀ wid mid : Nat, ∀ ts : Int, wid < 2 ^ 64 → mid < 2 ^ 64 →
      (NewPost.new aid wid mid ts).webhookIdU = wid ∧
      (NewPost.new aid wid mid ts).messageIdU = mid) := by
  have hround : ∀ n : Nat, n < 2 ^ 64 → i64ToU64 (u64ToI64 n) = n := by
    intro n hn
    unfold u64ToI64 i64ToU64
    split_ifs <;> omega
  refine ⟨hround, ?_, ?_, ?_⟩
  · intro i h1 h2
    unfold u64ToI64 i64ToU64
    split_ifs <;> omega
  · intro n h1 h2
    unfold u64ToI64
    split_ifs <;> omega
  · intro aid wid mid ts h1 h2
    exact ⟨hround wid h1, hround mid h2⟩

/-- C9 witness: a concrete identifier at `2 ^ 63 + 5` (above the signed
boundary) round-trips through the store representation. -/
theorem C9_roundtrip_witness :
    (NewPost.new "g" (2 ^ 63 + 5) 7 0).webhookIdU = 2 ^ 63 + 5 ∧
    i64ToU64 (u64ToI64 (2 ^ 63 + 5)) = 2 ^ 63 + 5 ∧
    u64ToI64 (2 ^ 63 + 5) < 0 :=
  ⟨(C9_roundtrip.2.2.2 "g" (2 ^ 63 + 5) 7 0 (by decide) (by decide)).1,
    C9_roundtrip.1 (2 ^ 63 + 5) (by decide),
    C9_roundtrip.2.2.1 (2 ^ 63 + 5) (by decide) (by decide)⟩

/-- C10: in daemon mode, for every non-negative current Unix timestamp the
computed sleep duration lies in `[1, 300]` (so the conversion to an
unsigned duration cannot fail), and the wake-up time `now + sleep` is the
next strictly later multiple of 300 seconds. -/
theorem C10_sleep (now : Int) (h : 0 ≤ now) :
    1 ≤ sleep_secs now ∧ sleep_secs now ≤ 300 ∧
    (now + sleep_secs now) % 300 = 0 ∧ now < now + sleep_secs now ∧
    ∀ m : Int, now < m → m % 300 = 0 → now + sleep_secs now ≤ m := by
  unfold sleep_secs DAEMON_INTERVAL_SECS
  rw [Int.tdiv_eq_ediv h (by norm_num)]
  refine ⟨by omega, by omega, by omega, by omega, fun m h1 h2 => by omega⟩

/-- C10 witness: at the concrete timestamp 1234 the sleep is 266 seconds
and the wake-up time 1500 is the next multiple of 300. -/
theorem C10_sleep_witness :
    1 ≤ sleep_secs 1234 ∧ sleep_secs 1234 ≤ 300 ∧
    (1234 + sleep_secs 1234) % 300 = 0 ∧ (1234 : Int) < 1234 + sleep_secs 1234 ∧
    ∀ m : Int, 1234 < m → m % 300 = 0 → 1234 + sleep_secs 1234 ≤ m :=
  C10_sleep 1234 (by decide)

/-- C6 counterexample: the string `2024-03-31 02:30:00` is well-formed
(its parse succeeds), yet the conversion neither returns an instant nor
fails with a time-parse error: the local time falls in the Berlin
spring-forward gap, `from_local_datetime` yields `LocalResult::None`, and
the `unwrap` in `validity_time_to_timestamp` panics. -/
theorem C6_counterexample :
    parse_from_str "2024-03-31 02:30:00" ≠ none ∧
    validity_time_to_timestamp "2024-03-31 02:30:00" = VResult.unwrapFails ∧
    validity_time_to_timestamp "2024-03-31 02:30:00" ≠ VResult.parseError := by
  refine ⟨by decide, by decide, by decide⟩

/-- Every single-instant resolution of a Berlin local time is the naive
reading shifted by the winter offset (+01:00) or the summer offset
(+02:00). -/
theorem berlin_single_offset (dt : NaiveDT) (t : Int)
    (hb : berlinFromLocal dt = .single t) :
    t = naiveSecs dt - 3600 ∨ t = naiveSecs dt - 7200 := by
  simp only [berlinFromLocal] at hb
  split at hb
  · exact absurd hb (by simp)
  · exact Or.inl (by injection hb with h; omega)
  · exact Or.inr (by injection hb with h; omega)
  · exact absurd hb (by simp)

/-- C6 amended: the conversion interprets well-formed strings as
Europe/Berlin local times — every returned instant differs from the naive
reading by exactly the Berlin winter or summer offset, and in particular
`2024-03-01 08:00:00` converts to Unix timestamp 1709276400 (offset
+01:00) — and malformed strings fail with a time-parse error; but a
well-formed string denoting a nonexistent or ambiguous local time (a
daylight-saving transition) makes the conversion panic instead of
returning. -/
theorem C6_amended :
    validity_time_to_timestamp "2024-03-01 08:00:00" = VResult.ok 1709276400 ∧
    validity_time_to_timestamp "2024-03-01T08:00:00" = VResult.parseError ∧
    (∀ s : String, parse_from_str s = none →
      validity_time_to_timestamp s = VResult.parseError) ∧
    (∀ s : String, ∀ t : Int, validity_time_to_timestamp s = VResult.ok t →
      ∃ dt, parse_from_str s = some dt ∧ berlinFromLocal dt = .single t ∧
        (t = naiveSecs dt - 3600 ∨ t = naiveSecs dt - 7200)) := by
  refine ⟨by decide, by decide, ?_, ?_⟩
  · intro s h
    unfold validity_time_to_timestamp
    rw [h]
  · intro s t h
    unfold validity_time_to_timestamp at h
    split at h
    · exact absurd h (by simp)
    next dt hp =>
      split at h
      next t2 hb =>
        have ht : t2 = t := by injection h
        subst ht
        exact ⟨dt, hp, hb, berlin_single_offset dt t2 hb⟩
      · exact absurd h (by simp)

/-- C6 amended witness: the universal clause applied at the concrete
string `2024-03-01 08:00:00` and instant 1709276400. -/
theorem C6_amended_witness :
    ∃ dt, parse_from_str "2024-03-01 08:00:00" = some dt ∧
      berlinFromLocal dt = .single 1709276400 ∧
      (1709276400 = naiveSecs dt - 3600 ∨ 1709276400 = naiveSecs dt - 7200) :=
  C6_amended.2.2.2 "2024-03-01 08:00:00" 1709276400 (by decide)

/-- C7 counterexample: on an input with two pairs of consecutive break
markers the first transform step does not drop exactly through the second
marker (which would leave `b<br/><br/>c`): the greedy leading wildcard
makes it drop through the last pair, leaving `c`. -/
theorem C7_counterexample :
    stripTimesStr "a<br/><br/>b<br/><br/>c" = "c" ∧
    ("c" : String) ≠ "b<br/><br/>c" := by
  refine ⟨by decide, by decide⟩

/-- A character of the whitespace-stripped list was already present. -/
theorem mem_of_mem_skipWs (c : Char) (l : List Char) (h : c ∈ skipWs l) : c ∈ l := by
  induction l with
  | nil => exact absurd h (by simp [skipWs])
  | cons x xs ih =>
    by_cases hx : isWsp x
    · simp only [skipWs, List.dropWhile_cons, hx] at h
      exact List.mem_cons_of_mem _ (ih h)
    · simp only [skipWs, List.dropWhile_cons, hx] at h
      simpa using h

/-- A self-closing break marker cannot match at a head other than `<`. -/
theorem matchBrStrict_not_lt (x : Char) (rest : List Char) (hx : x ≠ '<') :
    matchBrStrict (x :: rest) = none := by
  simp [matchBrStrict, hx]

/-- A self-closing break marker cannot match where no `<` occurs. -/
theorem matchBrStrict_eq_none (cs : List Char) (h : '<' ∉ cs) :
    matchBrStrict cs = none := by
  cases cs with
  | nil => rfl
  | cons c rest =>
    exact matchBrStrict_not_lt c rest fun hh => h (hh ▸ List.mem_cons_self c rest)

/-- A self-closing break marker matches itself, leaving the rest. -/
theorem matchBrStrict_br (rest : List Char) :
    matchBrStrict ('<' :: 'b' :: 'r' :: '/' :: '>' :: rest) = some rest := by
  simp +decide [matchBrStrict, skipWs]

/-- The break-marker pair cannot match at a head other than `<`. -/
theorem matchTimesTail_not_lt (x : Char) (rest : List Char) (hx : x ≠ '<') :
    matchTimesTail (x :: rest) = none := by
  unfold matchTimesTail
  rw [matchBrStrict_not_lt x rest hx]
  rfl

/-- A single break marker followed by `<`-free text is not a pair. -/
theorem matchTimesTail_single (rest : List Char) (h : '<' ∉ rest) :
    matchTimesTail ('<' :: 'b' :: 'r' :: '/' :: '>' :: rest) = none := by
  unfold matchTimesTail
  rw [matchBrStrict_br]
  show matchBrStrict (skipWs rest) = none
  exact matchBrStrict_eq_none _ fun hm => h (mem_of_mem_skipWs _ _ hm)

/-- The break-marker pair matches itself, leaving the rest. -/
theorem matchTimesTail_pair (rest : List Char) :
    matchTimesTail (brbr ++ rest) = some rest := by
  show matchTimesTail
    ('<' :: 'b' :: 'r' :: '/' :: '>' :: '<' :: 'b' :: 'r' :: '/' :: '>' :: rest) = some rest
  unfold matchTimesTail
  rw [matchBrStrict_br]
  show matchBrStrict (skipWs ('<' :: 'b' :: 'r' :: '/' :: '>' :: rest)) = some rest
  rw [show skipWs ('<' :: 'b' :: 'r' :: '/' :: '>' :: rest) =
      '<' :: 'b' :: 'r' :: '/' :: '>' :: rest from by simp +decide [skipWs]]
  exact matchBrStrict_br rest

/-- The first transform step finds no match in text without `<`. -/
theorem findLastRest_eq_none (cs : List Char) (h : '<' ∉ cs) :
    findLastRest cs = none := by
  induction cs with
  | nil => rfl
  | cons c rest ih =>
    have hrest : '<' ∉ rest := fun hm => h (List.mem_cons_of_mem _ hm)
    have hmtt : matchTimesTail (c :: rest) = none := by
      unfold matchTimesTail
      rw [matchBrStrict_eq_none _ h]
      rfl
    unfold findLastRest
    split
    · exact hmtt
    · rw [ih hrest]
      exact hmtt

/-- A deeper match survives one more leading character that is not a
newline (the greedy wildcard prefers the deeper start). -/
theorem findLastRest_cons_some (x : Char) (s r : List Char)
    (hx : x ≠ '\n') (h : findLastRest s = some r) :
    findLastRest (x :: s) = some r := by
  unfold findLastRest
  rw [if_neg (by simpa using hx), h]

/-- With no deeper match, the result at a position is the pair match at
that position. -/
theorem findLastRest_cons_of_none (x : Char) (s : List Char)
    (hnone : findLastRest s = none) :
    findLastRest (x :: s) = matchTimesTail (x :: s) := by
  unfold findLastRest
  split
  · rfl
  · rw [hnone]

/-- A deeper match survives any newline-free prefix. -/
theorem findLastRest_append_some (a t r : List Char)
    (ha : '\n' ∉ a) (h : findLastRest t = some r) :
    findLastRest (a ++ t) = some r := by
  induction a with
  | nil => simpa using h
  | cons x xs ih =>
    have hx : x ≠ '\n' := fun hh => ha (hh ▸ List.mem_cons_self x xs)
    rw [List.cons_append]
    exact findLastRest_cons_some x _ r hx (ih fun hm => ha (List.mem_cons_of_mem _ hm))

/-- A break-marker pair directly followed by `<`-free text matches, with
the rest of the text as remainder. -/
theorem findLastRest_brbr (c : List Char) (hc : '<' ∉ c) :
    findLastRest (brbr ++ c) = some c := by
  have h0 : findLastRest c = none := findLastRest_eq_none c hc
  have h9 : findLastRest ('>' :: c) = none := by
    rw [findLastRest_cons_of_none _ _ h0]
    exact matchTimesTail_not_lt _ _ (by decide)
  have h8 : findLastRest ('/' :: '>' :: c) = none := by
    rw [findLastRest_cons_of_none _ _ h9]
    exact matchTimesTail_not_lt _ _ (by decide)
  have h7 : findLastRest ('r' :: '/' :: '>' :: c) = none := by
    rw [findLastRest_cons_of_none _ _ h8]
    exact matchTimesTail_not_lt _ _ (by decide)
  have h6 : findLastRest ('b' :: 'r' :: '/' :: '>' :: c) = none := by
    rw [findLastRest_cons_of_none _ _ h7]
    exact matchTimesTail_not_lt _ _ (by decide)
  have h5 : findLastRest ('<' :: 'b' :: 'r' :: '/' :: '>' :: c) = none := by
    rw [findLastRest_cons_of_none _ _ h6]
    exact matchTimesTail_single c hc
  have h4 : findLastRest ('>' :: '<' :: 'b' :: 'r' :: '/' :: '>' :: c) = none := by
    rw [findLastRest_cons_of_none _ _ h5]
    exact matchTimesTail_not_lt _ _ (by decide)
  have h3 : findLastRest ('/' :: '>' :: '<' :: 'b' :: 'r' :: '/' :: '>' :: c) = none := by
    rw [findLastRest_cons_of_none _ _ h4]
    exact matchTimesTail_not_lt _ _ (by decide)
  have h2 : findLastRest ('r' :: '/' :: '>' :: '<' :: 'b' :: 'r' :: '/' :: '>' :: c) = none := by
    rw [findLastRest_cons_of_none _ _ h3]
    exact matchTimesTail_not_lt _ _ (by decide)
  have h1 : findLastRest
      ('b' :: 'r' :: '/' :: '>' :: '<' :: 'b' :: 'r' :: '/' :: '>' :: c) = none := by
    rw [findLastRest_cons_of_none _ _ h2]
    exact matchTimesTail_not_lt _ _ (by decide)
  show findLastRest
    ('<' :: 'b' :: 'r' :: '/' :: '>' :: '<' :: 'b' :: 'r' :: '/' :: '>' :: c) = some c
  rw [findLastRest_cons_of_none _ _ h1]
  exact matchTimesTail_pair c

/-- C7 amended: the first transform step drops everything up to and
including the LAST pair of consecutive break markers whose preceding
content is newline-free (the leading wildcard is greedy and does not
cross a newline), not just through the second break marker; text in which
no break-marker pair matches is left unchanged. -/
theorem C7_amended (a b c : List Char) (ha : '\n' ∉ a) (hb : '\n' ∉ b) (hc : '<' ∉ c) :
    stripTimes (a ++ brbr ++ c) = c ∧
    stripTimes (a ++ brbr ++ b ++ brbr ++ c) = c ∧
    ∀ s : List Char, '<' ∉ s → stripTimes s = s := by
  refine ⟨?_, ?_, ?_⟩
  · have h := findLastRest_append_some a (brbr ++ c) c ha (findLastRest_brbr c hc)
    unfold stripTimes
    rw [List.append_assoc, h]
    rfl
  · have hbase : findLastRest (b ++ (brbr ++ c)) = some c :=
      findLastRest_append_some b _ c hb (findLastRest_brbr c hc)
    have hmid : findLastRest (brbr ++ (b ++ (brbr ++ c))) = some c :=
      findLastRest_append_some brbr _ c (by decide) hbase
    have h := findLastRest_append_some a _ c ha hmid
    unfold stripTimes
    rw [show a ++ brbr ++ b ++ brbr ++ c = a ++ (brbr ++ (b ++ (brbr ++ c))) by
      simp [List.append_assoc], h]
    rfl
  · intro s hs
    unfold stripTimes
    rw [findLastRest_eq_none s hs]
    rfl

/-- C1: for an entry that is processed (it has a guid, a parseable
publication date, and renders) under an environment in which the external
calls succeed: with no record for the key the engine performs exactly one
create call and exactly one insert carrying the returned message
identifier and the publication timestamp; with a record strictly older
than the publication timestamp it performs exactly one edit call against
the recorded message identifier and exactly one update; with a record at
least as new it performs no sink call and no store write. -/
theorem C1_classification (env : ItemEnv) (wid : Nat) (store : List Post) (item : Item)
    (g : String) (ts : Int) (e : Embed)
    (henv : envOk env) (hg : item.guid = some g) (hts : item.pubDate = some ts)
    (hr : item_to_embed item = .ok e) :
    (store.find? (keyMatches wid g) = none →
      ∃ mid, env.createResult = some mid ∧
        refresh_item env wid store item =
          ⟨[SinkCall.create e], store ++ [NewPost.new g wid mid ts], .ok⟩) ∧
    (∀ p, store.find? (keyMatches wid g) = some p → p.last_updated < ts →
      refresh_item env wid store item =
        ⟨[SinkCall.edit (i64ToU64 p.message_id) e], updateStore wid g ts store, .ok⟩) ∧
    (∀ p, store.find? (keyMatches wid g) = some p → ts ≤ p.last_updated →
      refresh_item env wid store item = ⟨[], store, .ok⟩) := by
  obtain ⟨hl, hc, he, hi, hu⟩ := henv
  obtain ⟨mid, hmid⟩ := Option.isSome_iff_exists.mp hc
  refine ⟨?_, ?_, ?_⟩
  · intro hfind
    refine ⟨mid, hmid, ?_⟩
    simp [refresh_item, hg, hts, hl, hfind, hr, hmid, hi]
  · intro p hfind hlt
    simp [refresh_item, hg, hts, hl, hfind, hr, he, hu, hlt]
  · intro p hfind hge
    simp [refresh_item, hg, hts, hl, hfind, not_lt.mpr hge]

/-- C1 witness: the three classifications evaluated on the concrete item
`itemEx`, once against an empty store, once against a stale row, once
against a current row. -/
theorem C1_classification_witness :
    refresh_item envEx 5 [] itemEx =
      ⟨[SinkCall.create embedEx], [NewPost.new "guid-1" 5 77 100], ItemOutcome.ok⟩ ∧
    refresh_item envEx 5 [postEx] itemEx =
      ⟨[SinkCall.edit 77 embedEx], updateStore 5 "guid-1" 100 [postEx], ItemOutcome.ok⟩ ∧
    refresh_item envEx 5 [NewPost.new "guid-1" 5 77 100] itemEx =
      ⟨[], [NewPost.new "guid-1" 5 77 100], ItemOutcome.ok⟩ := by
  have h1 := (C1_classification envEx 5 [] itemEx "guid-1" 100 embedEx (by decide) (by decide)
    (by decide) (by decide)).1 (by decide)
  have h2 := (C1_classification envEx 5 [postEx] itemEx "guid-1" 100 embedEx (by decide)
    (by decide) (by decide) (by decide)).2.1 postEx (by decide) (by decide)
  have h3 := (C1_classification envEx 5 [NewPost.new "guid-1" 5 77 100] itemEx "guid-1" 100
    embedEx (by decide) (by decide) (by decide) (by decide)).2.2
    (NewPost.new "guid-1" 5 77 100) (by decide) (by decide)
  refine ⟨?_, ?_, h3⟩
  · obtain ⟨mid, hmid, heq⟩ := h1
    have hm : (77 : Nat) = mid := by
      have h4 : some (77 : Nat) = some mid := by rw [← hmid]; rfl
      injection h4
    rw [← hm] at heq
    simpa using heq
  · have hmsg : i64ToU64 postEx.message_id = 77 := by decide
    rw [hmsg] at h2
    exact h2

/-- Complete case analysis of one item step: either the store is left
unchanged, or the step is the full stale edit-and-update, or the full
unseen create-and-insert. -/
theorem refresh_item_store_cases (env : ItemEnv) (wid : Nat) (store : List Post)
    (item : Item) :
    (refresh_item env wid store item).store = store ∨
    (∃ g ts p e, item.guid = some g ∧ item.pubDate = some ts ∧
      store.find? (keyMatches wid g) = some p ∧ p.last_updated < ts ∧
      item_to_embed item = .ok e ∧
      refresh_item env wid store item =
        ⟨[SinkCall.edit (i64ToU64 p.message_id) e], updateStore wid g ts store, .ok⟩) ∨
    (∃ g ts mid e, item.guid = some g ∧ item.pubDate = some ts ∧
      store.find? (keyMatches wid g) = none ∧
      item_to_embed item = .ok e ∧ env.createResult = some mid ∧
      refresh_item env wid store item =
        ⟨[SinkCall.create e], store ++ [NewPost.new g wid mid ts], .ok⟩) := by
  cases hg : item.guid with
  | none => left; simp [refresh_item, hg]
  | some g =>
  cases hts : item.pubDate with
  | none => left; simp [refresh_item, hg, hts]
  | some ts =>
  by_cases hl : env.lookupOk = false
  · left; simp [refresh_item, hg, hts, hl]
  · cases hfind : store.find? (keyMatches wid g) with
    | some p =>
      by_cases hcmp : p.last_updated < ts
      · cases hemb : item_to_embed item with
        | fatal => left; simp [refresh_item, hg, hts, hl, hfind, hcmp, hemb]
        | fail => left; simp [refresh_item, hg, hts, hl, hfind, hcmp, hemb]
        | ok e =>
          by_cases he : env.editOk = false
          · left; simp [refresh_item, hg, hts, hl, hfind, hcmp, hemb, he]
          · by_cases hu : env.updateOk = false
            · left; simp [refresh_item, hg, hts, hl, hfind, hcmp, hemb, he, hu]
            · right; left
              exact ⟨g, ts, p, e, rfl, rfl, hfind, hcmp, rfl,
                by simp [refresh_item, hg, hts, hl, hfind, hcmp, hemb, he, hu]⟩
      · left; simp [refresh_item, hg, hts, hl, hfind, hcmp]
    | none =>
      cases hemb : item_to_embed item with
      | fatal => left; simp [refresh_item, hg, hts, hl, hfind, hemb]
      | fail => left; simp [refresh_item, hg, hts, hl, hfind, hemb]
      | ok e =>
        cases hcr : env.createResult with
        | none => left; simp [refresh_item, hg, hts, hl, hfind, hemb, hcr]
        | some mid =>
          by_cases hi : env.insertOk = false
          · left; simp [refresh_item, hg, hts, hl, hfind, hemb, hcr, hi]
          · right; right
            exact ⟨g, ts, mid, e, rfl, rfl, hfind, rfl, rfl,
              by simp [refresh_item, hg, hts, hl, hfind, hemb, hcr, hi]⟩

/-- The stale update rewrites only `last_updated`: the projections of the
store to the other three fields are untouched. -/
theorem updateStore_fields (wid : Nat) (g : String) (ts : Int) (store : List Post) :
    (updateStore wid g ts store).map Post.announcement_id = store.map Post.announcement_id ∧
    (updateStore wid g ts store).map Post.webhook_id = store.map Post.webhook_id ∧
    (updateStore wid g ts store).map Post.message_id = store.map Post.message_id ∧
    (updateStore wid g ts store).length = store.length := by
  refine ⟨?_, ?_, ?_, by simp [updateStore]⟩ <;>
    (unfold updateStore
     rw [List.map_map]
     apply List.map_congr_left
     intro q _
     by_cases hk : keyMatches wid g q <;> simp [hk])

/-- Two rows matching the same lookup filter share the composite key. -/
theorem sameKey_of_keyMatches (wid : Nat) (g : String) (p q : Post)
    (hp : keyMatches wid g p = true) (hq : keyMatches wid g q = true) :
    sameKey p q := by
  simp only [keyMatches, Bool.and_eq_true, beq_iff_eq] at hp hq
  exact ⟨hp.2.trans hq.2.symm, hp.1.trans hq.1.symm⟩

/-- A row that survives an item step with its key and message identifier
intact exists for every row of the starting store; the engine never
deletes a row. -/
theorem refresh_item_no_delete (env : ItemEnv) (wid : Nat) (S : List Post) (item : Item) :
    S.length ≤ ((refresh_item env wid S item).store).length ∧
    ∀ q ∈ S, ∃ r ∈ (refresh_item env wid S item).store,
      sameKey q r ∧ r.message_id = q.message_id := by
  rcases refresh_item_store_cases env wid S item with h | ⟨g, ts, p, e, _, _, _, _, _, h⟩ |
    ⟨g, ts, mid, e, _, _, _, _, _, h⟩
  · rw [h]
    exact ⟨le_refl _, fun q hq => ⟨q, hq, ⟨rfl, rfl⟩, rfl⟩⟩
  · rw [h]
    refine ⟨by simp [updateStore], fun q hq => ?_⟩
    refine ⟨if keyMatches wid g q then { q with last_updated := ts } else q,
      List.mem_map_of_mem _ hq, ?_⟩
    by_cases hk : keyMatches wid g q <;> simp [hk, sameKey]
  · rw [h]
    exact ⟨by simp, fun q hq => ⟨q, by simp [hq], ⟨rfl, rfl⟩, rfl⟩⟩

/-- C5: in the stale case the store write is exactly the update of
`last_updated` on the rows with the entry key — the projections of the
store to announcement identifier, webhook identifier and message
identifier are unchanged and no row count changes — and in general no
item step ever deletes a record. -/
theorem C5_frame (env : ItemEnv) (wid : Nat) (store : List Post) (item : Item)
    (g : String) (ts : Int) (p : Post) (e : Embed)
    (henv : envOk env) (hg : item.guid = some g) (hts : item.pubDate = some ts)
    (hfind : store.find? (keyMatches wid g) = some p) (hlt : p.last_updated < ts)
    (hr : item_to_embed item = .ok e) :
    ((refresh_item env wid store item).store = updateStore wid g ts store ∧
      (updateStore wid g ts store).map Post.announcement_id =
        store.map Post.announcement_id ∧
      (updateStore wid g ts store).map Post.webhook_id = store.map Post.webhook_id ∧
      (updateStore wid g ts store).map Post.message_id = store.map Post.message_id ∧
      (updateStore wid g ts store).length = store.length) ∧
    (∀ env2 : ItemEnv, ∀ item2 : Item, ∀ S : List Post,
      S.length ≤ ((refresh_item env2 wid S item2).store).length ∧
      ∀ q ∈ S, ∃ r ∈ (refresh_item env2 wid S item2).store,
        sameKey q r ∧ r.message_id = q.message_id) := by
  obtain ⟨hl, hc, he, hi, hu⟩ := henv
  obtain ⟨hf1, hf2, hf3, hf4⟩ := updateStore_fields wid g ts store
  refine ⟨⟨?_, hf1, hf2, hf3, hf4⟩, fun env2 item2 S => refresh_item_no_delete env2 wid S item2⟩
  simp [refresh_item, hg, hts, hl, hfind, hr, he, hu, hlt]

/-- C5 witness: the stale update on the concrete store `[postEx]` and the
no-deletion clause evaluated on it. -/
theorem C5_frame_witness :
    (refresh_item envEx 5 [postEx] itemEx).store = updateStore 5 "guid-1" 100 [postEx] ∧
    (updateStore 5 "guid-1" 100 [postEx]).map Post.message_id = [postEx].map Post.message_id ∧
    ∀ q ∈ [postEx], ∃ r ∈ (refresh_item envEx 5 [postEx] itemEx).store,
      sameKey q r ∧ r.message_id = q.message_id := by
  have h := C5_frame envEx 5 [postEx] itemEx "guid-1" 100 postEx embedEx (by decide)
    (by decide) (by decide) (by decide) (by decide) (by decide)
  exact ⟨h.1.1, h.1.2.2.2.1, (h.2 envEx itemEx [postEx]).2⟩

/-- A caught per-item error leaves the store untouched. -/
theorem refresh_item_err_no_write (env : ItemEnv) (wid : Nat) (S : List Post) (item : Item)
    (h : (refresh_item env wid S item).outcome = ItemOutcome.err) :
    (refresh_item env wid S item).store = S := by
  rcases refresh_item_store_cases env wid S item with h1 | ⟨g, ts, p, e, _, _, _, _, _, h1⟩ |
    ⟨g, ts, mid, e, _, _, _, _, _, h1⟩
  · exact h1
  · rw [h1] at h; exact absurd h (by simp)
  · rw [h1] at h; exact absurd h (by simp)

/-- Processing a concatenation of items is processing the first part and
then the second on the store it left, provided the first part did not
abort. -/
theorem refreshItems_append (wid : Nat) (xs ys : List (ItemEnv × Item)) (S : List Post)
    (h : (refreshItems wid xs S).aborted = false) :
    refreshItems wid (xs ++ ys) S =
      ⟨(refreshItems wid xs S).trace
          ++ (refreshItems wid ys (refreshItems wid xs S).store).trace,
        (refreshItems wid ys (refreshItems wid xs S).store).store,
        (refreshItems wid ys (refreshItems wid xs S).store).aborted⟩ := by
  induction xs generalizing S with
  | nil => simp [refreshItems]
  | cons hd tl ih =>
    obtain ⟨e, i⟩ := hd
    by_cases hout : (refresh_item e wid S i).outcome = ItemOutcome.aborted
    · exfalso
      simp [refreshItems, hout] at h
    · simp only [List.cons_append, refreshItems, if_neg hout, List.append_eq] at h ⊢
      rw [ih _ h]
      simp [List.append_assoc]

/-- C3: a failing entry is caught at the per-entry boundary: an error
outcome applies no store mutation for that entry, the cycle continues so
that all entries after it are still fully processed against the store the
earlier (not rolled back) entries left, and a feed-parse failure — and
only that — aborts the cycle before any entry is processed. -/
theorem C3_isolation (wid : Nat) :
    (∀ env : ItemEnv, ∀ item : Item, ∀ S : List Post,
      (refresh_item env wid S item).outcome = ItemOutcome.err →
      (refresh_item env wid S item).store = S) ∧
    (∀ xs : List (ItemEnv × Item), ∀ env : ItemEnv, ∀ item : Item,
      ∀ ys : List (ItemEnv × Item), ∀ S : List Post,
      (refreshItems wid xs S).aborted = false →
      (refresh_item env wid (refreshItems wid xs S).store item).outcome = ItemOutcome.err →
      refreshItems wid (xs ++ (env, item) :: ys) S =
        ⟨(refreshItems wid xs S).trace
            ++ (refresh_item env wid (refreshItems wid xs S).store item).trace
            ++ (refreshItems wid ys (refreshItems wid xs S).store).trace,
          (refreshItems wid ys (refreshItems wid xs S).store).store,
          (refreshItems wid ys (refreshItems wid xs S).store).aborted⟩) ∧
    (∀ S : List Post, refresh wid none S = ⟨⟨[], S, false⟩, true⟩) := by
  refine ⟨fun env item S h => refresh_item_err_no_write env wid S item h, ?_, fun S => rfl⟩
  intro xs env item ys S hab herr
  rw [refreshItems_append wid xs ((env, item) :: ys) S hab]
  have hne : (refresh_item env wid (refreshItems wid xs S).store item).outcome ≠
      ItemOutcome.aborted := by rw [herr]; simp
  have hstore := refresh_item_err_no_write env wid _ item herr
  simp only [refreshItems, if_neg hne]
  rw [hstore]
  simp [List.append_assoc]

/-- C3 witness: a three-entry cycle whose middle entry fails (missing
guid): the first entry is committed, the failing entry writes nothing,
and the third entry is still processed against the store the first one
left. -/
theorem C3_isolation_witness :
    refreshItems 5 ([(envEx, itemEx)] ++ (envEx, badItemEx) :: [(envEx, itemEx)]) [] =
      ⟨(refreshItems 5 [(envEx, itemEx)] []).trace
          ++ (refresh_item envEx 5 (refreshItems 5 [(envEx, itemEx)] []).store badItemEx).trace
          ++ (refreshItems 5 [(envEx, itemEx)]
                (refreshItems 5 [(envEx, itemEx)] []).store).trace,
        (refreshItems 5 [(envEx, itemEx)] (refreshItems 5 [(envEx, itemEx)] []).store).store,
        (refreshItems 5 [(envEx, itemEx)] (refreshItems 5 [(envEx, itemEx)] []).store).aborted⟩ :=
  (C3_isolation 5).2.1 [(envEx, itemEx)] envEx badItemEx [(envEx, itemEx)] [] (by decide)
    (by decide)

theorem sameKey_symm (p q : Post) (h : sameKey p q) : sameKey q p := ⟨h.1.symm, h.2.symm⟩

/-- In a store with at most one row per key, two rows sharing a key are
the same row. -/
theorem pairwise_key_unique (S : List Post) (h : atMostOne S) :
    ∀ p ∈ S, ∀ q ∈ S, sameKey p q → p = q := by
  induction S with
  | nil => intro p hp; exact absurd hp (by simp)
  | cons x xs ih =>
    rw [atMostOne, List.pairwise_cons] at h
    intro p hp q hq hk
    rcases List.mem_cons.mp hp with rfl | hp2
    · rcases List.mem_cons.mp hq with rfl | hq2
      · rfl
      · exact absurd hk (h.1 q hq2)
    · rcases List.mem_cons.mp hq with rfl | hq2
      · exact absurd (sameKey_symm _ _ hk) (h.1 p hp2)
      · exact ih h.2 p hp2 q hq2 hk

/-- The stale update leaves the key fields of every row unchanged. -/
theorem upd_preserves_key (wid : Nat) (g : String) (ts : Int) (q : Post) :
    ((if keyMatches wid g q then { q with last_updated := ts } else q) : Post).announcement_id
      = q.announcement_id ∧
    ((if keyMatches wid g q then { q with last_updated := ts } else q) : Post).webhook_id
      = q.webhook_id := by
  by_cases hk : keyMatches wid g q <;> simp [hk]

/-- One item step preserves the at-most-one-row-per-key invariant, every
starting row survives with its key and a `last_updated` at least as
large, and no row ever gets a strictly smaller `last_updated` than a
same-key row of the starting store. -/
theorem refresh_item_invariant (env : ItemEnv) (wid : Nat) (S : List Post) (item : Item)
    (h : atMostOne S) :
    atMostOne (refresh_item env wid S item).store ∧
    (∀ p ∈ S, ∃ r ∈ (refresh_item env wid S item).store,
      sameKey p r ∧ p.last_updated ≤ r.last_updated) ∧
    (∀ r ∈ (refresh_item env wid S item).store, ∀ p ∈ S,
      sameKey p r → p.last_updated ≤ r.last_updated) := by
  rcases refresh_item_store_cases env wid S item with h1 |
    ⟨g, ts, p0, e, hg, hts, hfind, hlt, hemb, h1⟩ |
    ⟨g, ts, mid, e, hg, hts, hfind, hemb, hcr, h1⟩
  · rw [h1]
    exact ⟨h, fun p hp => ⟨p, hp, ⟨rfl, rfl⟩, le_refl _⟩,
      fun r hr p hp hk => by rw [pairwise_key_unique S h p hp r hr hk]⟩
  · rw [h1]
    have hp0mem : p0 ∈ S := List.mem_of_find?_eq_some hfind
    have hp0key : keyMatches wid g p0 = true := List.find?_some hfind
    have hkey_last : ∀ q ∈ S, keyMatches wid g q = true → q = p0 := fun q hq hqk =>
      pairwise_key_unique S h q hq p0 hp0mem (sameKey_of_keyMatches wid g q p0 hqk hp0key)
    refine ⟨?_, ?_, ?_⟩
    · unfold updateStore atMostOne
      rw [List.pairwise_map]
      refine h.imp ?_
      intro a b hab hk2
      apply hab
      obtain ⟨ha1, ha2⟩ := upd_preserves_key wid g ts a
      obtain ⟨hb1, hb2⟩ := upd_preserves_key wid g ts b
      exact ⟨by rw [← ha1, ← hb1]; exact hk2.1, by rw [← ha2, ← hb2]; exact hk2.2⟩
    · intro p hp
      refine ⟨if keyMatches wid g p then { p with last_updated := ts } else p,
        List.mem_map_of_mem _ hp, ?_, ?_⟩
      · by_cases hk : keyMatches wid g p <;> simp [hk, sameKey]
      · by_cases hk : keyMatches wid g p
        · simp only [if_pos hk]
          rw [hkey_last p hp hk]
          exact le_of_lt hlt
        · simp [hk]
    · intro r hr p hp hk
      obtain ⟨x, hx, rfl⟩ := List.mem_map.mp hr
      obtain ⟨h1x, h2x⟩ := upd_preserves_key wid g ts x
      have hkx : sameKey p x := ⟨hk.1.trans h1x, hk.2.trans h2x⟩
      have hpx : p = x := pairwise_key_unique S h p hp x hx hkx
      subst hpx
      by_cases hkp : keyMatches wid g p
      · simp only [if_pos hkp]
        rw [hkey_last p hp hkp]
        exact le_of_lt hlt
      · simp [hkp]
  · rw [h1]
    have hnone : ∀ x ∈ S, ¬keyMatches wid g x = true := List.find?_eq_none.mp hfind
    refine ⟨?_, ?_, ?_⟩
    · unfold atMostOne
      rw [List.pairwise_append]
      refine ⟨h, by simp [atMostOne], ?_⟩
      intro a ha b hb hksame
      have hb2 : b = NewPost.new g wid mid ts := by simpa using hb
      subst hb2
      apply hnone a ha
      have hs2 := hksame
      simp only [sameKey, NewPost.new] at hs2
      simp only [keyMatches, Bool.and_eq_true, beq_iff_eq]
      exact ⟨hs2.2, hs2.1⟩
    · intro p hp
      exact ⟨p, by simp [hp], ⟨rfl, rfl⟩, le_refl _⟩
    · intro r hr p hp hk
      rcases List.mem_append.mp hr with hr1 | hr2
      · rw [pairwise_key_unique S h p hp r hr1 hk]
      · have hr3 : r = NewPost.new g wid mid ts := by simpa using hr2
        subst hr3
        exfalso
        apply hnone p hp
        have hs2 := hk
        simp only [sameKey, NewPost.new] at hs2
        simp only [keyMatches, Bool.and_eq_true, beq_iff_eq]
        exact ⟨hs2.2, hs2.1⟩

/-- One cycle preserves the key invariant and the `last_updated`
monotonicity relative to the starting store. -/
theorem refreshItems_invariant (wid : Nat) (pairs : List (ItemEnv × Item)) (S : List Post)
    (h : atMostOne S) :
    atMostOne (refreshItems wid pairs S).store ∧
    (∀ p ∈ S, ∃ r ∈ (refreshItems wid pairs S).store,
      sameKey p r ∧ p.last_updated ≤ r.last_updated) ∧
    (∀ r ∈ (refreshItems wid pairs S).store, ∀ p ∈ S,
      sameKey p r → p.last_updated ≤ r.last_updated) := by
  induction pairs generalizing S with
  | nil =>
    exact ⟨h, fun p hp => ⟨p, hp, ⟨rfl, rfl⟩, le_refl _⟩,
      fun r hr p hp hk => by rw [pairwise_key_unique S h p hp r hr hk]⟩
  | cons hd tl ih =>
    obtain ⟨e, i⟩ := hd
    obtain ⟨hstep1, hstep2, hstep3⟩ := refresh_item_invariant e wid S i h
    by_cases hout : (refresh_item e wid S i).outcome = ItemOutcome.aborted
    · simp only [refreshItems, if_pos hout]
      exact ⟨hstep1, hstep2, hstep3⟩
    · simp only [refreshItems, if_neg hout]
      obtain ⟨hrec1, hrec2, hrec3⟩ := ih _ hstep1
      refine ⟨hrec1, ?_, ?_⟩
      · intro p hp
        obtain ⟨r1, hr1, hk1, hle1⟩ := hstep2 p hp
        obtain ⟨r2, hr2, hk2, hle2⟩ := hrec2 r1 hr1
        exact ⟨r2, hr2, ⟨hk1.1.trans hk2.1, hk1.2.trans hk2.2⟩, le_trans hle1 hle2⟩
      · intro r hr p hp hk
        obtain ⟨r1, hr1, hk1, hle1⟩ := hstep2 p hp
        have hk2 : sameKey r1 r := ⟨hk1.1.symm.trans hk.1, hk1.2.symm.trans hk.2⟩
        exact le_trans hle1 (hrec3 r hr r1 hr1 hk2)

/-- C4: starting from a store with at most one row per composite key,
every sequence of reconciliation cycles preserves that invariant, every
starting row survives with its key, and `last_updated` never decreases:
no row of the final store is strictly older than a same-key row of the
starting store. -/
theorem C4_invariants (wid : Nat) (cycles : List (List (ItemEnv × Item))) (S : List Post)
    (h : atMostOne S) :
    atMostOne (refreshSeq wid cycles S) ∧
    (∀ p ∈ S, ∃ r ∈ refreshSeq wid cycles S,
      sameKey p r ∧ p.last_updated ≤ r.last_updated) ∧
    (∀ r ∈ refreshSeq wid cycles S, ∀ p ∈ S,
      sameKey p r → p.last_updated ≤ r.last_updated) := by
  induction cycles generalizing S with
  | nil =>
    exact ⟨h, fun p hp => ⟨p, hp, ⟨rfl, rfl⟩, le_refl _⟩,
      fun r hr p hp hk => by rw [pairwise_key_unique S h p hp r hr hk]⟩
  | cons c cs ih =>
    simp only [refreshSeq]
    obtain ⟨h1, h2, h3⟩ := refreshItems_invariant wid c S h
    obtain ⟨hr1, hr2, hr3⟩ := ih _ h1
    refine ⟨hr1, ?_, ?_⟩
    · intro p hp
      obtain ⟨r1, hm1, hk1, hle1⟩ := h2 p hp
      obtain ⟨r2, hm2, hk2, hle2⟩ := hr2 r1 hm1
      exact ⟨r2, hm2, ⟨hk1.1.trans hk2.1, hk1.2.trans hk2.2⟩, le_trans hle1 hle2⟩
    · intro r hr p hp hk
      obtain ⟨r1, hm1, hk1, hle1⟩ := h2 p hp
      have hk2 : sameKey r1 r := ⟨hk1.1.symm.trans hk.1, hk1.2.symm.trans hk.2⟩
      exact le_trans hle1 (hr3 r hr r1 hm1 hk2)

/-- C4 witness: two cycles over the same one-item feed starting from a
one-row stale store. -/
theorem C4_invariants_witness :
    atMostOne (refreshSeq 5 [[(envEx, itemEx)], [(envEx, itemEx)]] [postEx]) ∧
    (∀ p ∈ [postEx], ∃ r ∈ refreshSeq 5 [[(envEx, itemEx)], [(envEx, itemEx)]] [postEx],
      sameKey p r ∧ p.last_updated ≤ r.last_updated) ∧
    (∀ r ∈ refreshSeq 5 [[(envEx, itemEx)], [(envEx, itemEx)]] [postEx], ∀ p ∈ [postEx],
      sameKey p r → p.last_updated ≤ r.last_updated) :=
  C4_invariants 5 [[(envEx, itemEx)], [(envEx, itemEx)]] [postEx] (by decide)

/-- After the stale update, the lookup for the updated key finds the row
with the new `last_updated`. -/
theorem find?_updateStore_same (wid : Nat) (g : String) (ts : Int) (S : List Post) (p : Post)
    (hfind : S.find? (keyMatches wid g) = some p) :
    (updateStore wid g ts S).find? (keyMatches wid g) =
      some { p with last_updated := ts } := by
  unfold updateStore
  rw [List.find?_map]
  have hcomp : (keyMatches wid g ∘ fun q =>
      if keyMatches wid g q then { q with last_updated := ts } else q) = keyMatches wid g := by
    funext q
    simp only [Function.comp]
    by_cases hk : keyMatches wid g q
    · rw [if_pos hk]; rfl
    · rw [if_neg hk]
  rw [hcomp, hfind]
  have hkp : keyMatches wid g p = true := List.find?_some hfind
  simp [hkp]

/-- An item step never makes the first row found for any key older: the
lookup keeps succeeding and its `last_updated` does not decrease. -/
theorem refresh_item_find_mono (env : ItemEnv) (wid : Nat) (S : List Post) (item : Item)
    (g2 : String) (p : Post)
    (hfind : S.find? (keyMatches wid g2) = some p) :
    ∃ r, (refresh_item env wid S item).store.find? (keyMatches wid g2) = some r ∧
      p.last_updated ≤ r.last_updated := by
  rcases refresh_item_store_cases env wid S item with h1 |
    ⟨g, ts, p0, e, hg, hts, hf0, hlt, hemb, h1⟩ |
    ⟨g, ts, mid, e, hg, hts, hf0, hemb, hcr, h1⟩
  · rw [h1]; exact ⟨p, hfind, le_refl _⟩
  · rw [h1]
    by_cases hgg : g2 = g
    · subst hgg
      rw [hf0] at hfind
      have hpp : p0 = p := by injection hfind
      subst hpp
      exact ⟨{ p0 with last_updated := ts }, find?_updateStore_same wid g2 ts S p0 hf0,
        le_of_lt hlt⟩
    · refine ⟨p, ?_, le_refl _⟩
      unfold updateStore
      rw [List.find?_map]
      have hcomp : (keyMatches wid g2 ∘ fun q =>
          if keyMatches wid g q then { q with last_updated := ts } else q)
            = keyMatches wid g2 := by
        funext q
        simp only [Function.comp]
        by_cases hk : keyMatches wid g q
        · rw [if_pos hk]; rfl
        · rw [if_neg hk]
      rw [hcomp, hfind]
      have hkp : keyMatches wid g2 p = true := List.find?_some hfind
      have hkpg : ¬keyMatches wid g p = true := by
        simp only [keyMatches, Bool.and_eq_true, beq_iff_eq] at hkp ⊢
        rintro ⟨-, hann⟩
        exact hgg (hkp.2.symm.trans hann)
      simp [hkpg]
  · rw [h1]
    rw [List.find?_append, hfind]
    exact ⟨p, by simp, le_refl _⟩

/-- After an all-success item step, the item it processed is settled:
running it again performs no sink call and no store write. -/
theorem step_settles (env : ItemEnv) (wid : Nat) (S : List Post) (item : Item)
    (henv : envOk env) :
    settled wid (refresh_item env wid S item).store item := by
  obtain ⟨hl, hc, he, hi, hu⟩ := henv
  obtain ⟨mid0, hmid0⟩ := Option.isSome_iff_exists.mp hc
  cases hg : item.guid with
  | none => exact Or.inl hg
  | some g =>
  cases hts : item.pubDate with
  | none => exact Or.inr (Or.inl hts)
  | some ts =>
  cases hemb : item_to_embed item with
  | fail =>
    exact Or.inr (Or.inr ⟨g, ts, hg, hts,
      Or.inr fun e2 h2 => by rw [hemb] at h2; exact absurd h2 (by simp)⟩)
  | fatal =>
    exact Or.inr (Or.inr ⟨g, ts, hg, hts,
      Or.inr fun e2 h2 => by rw [hemb] at h2; exact absurd h2 (by simp)⟩)
  | ok e =>
    cases hfind : S.find? (keyMatches wid g) with
    | some p =>
      by_cases hcmp : p.last_updated < ts
      · have hres : refresh_item env wid S item =
            ⟨[SinkCall.edit (i64ToU64 p.message_id) e], updateStore wid g ts S, .ok⟩ := by
          simp [refresh_item, hg, hts, hl, hfind, hcmp, hemb, he, hu]
        rw [hres]
        exact Or.inr (Or.inr ⟨g, ts, hg, hts,
          Or.inl ⟨{ p with last_updated := ts },
            find?_updateStore_same wid g ts S p hfind, le_refl ts⟩⟩)
      · have hres : refresh_item env wid S item = ⟨[], S, .ok⟩ := by
          simp [refresh_item, hg, hts, hl, hfind, hcmp, hemb]
        rw [hres]
        exact Or.inr (Or.inr ⟨g, ts, hg, hts, Or.inl ⟨p, hfind, not_lt.mp hcmp⟩⟩)
    | none =>
      have hres : refresh_item env wid S item =
          ⟨[SinkCall.create e], S ++ [NewPost.new g wid mid0 ts], .ok⟩ := by
        simp [refresh_item, hg, hts, hl, hfind, hemb, hmid0, hi]
      rw [hres]
      refine Or.inr (Or.inr ⟨g, ts, hg, hts,
        Or.inl ⟨NewPost.new g wid mid0 ts, ?_, le_refl ts⟩⟩)
      rw [List.find?_append, hfind]
      simp [keyMatches, NewPost.new]

/-- A settled item stays settled through any further item step. -/
theorem step_preserves_settled (env : ItemEnv) (wid : Nat) (S : List Post) (i j : Item)
    (hs : settled wid S i) :
    settled wid (refresh_item env wid S j).store i := by
  rcases hs with hg | hts | ⟨g, ts, hg, hts, hcase⟩
  · exact Or.inl hg
  · exact Or.inr (Or.inl hts)
  · rcases hcase with ⟨p, hfind, hge⟩ | hrender
    · obtain ⟨r, hr, hle⟩ := refresh_item_find_mono env wid S j g p hfind
      exact Or.inr (Or.inr ⟨g, ts, hg, hts, Or.inl ⟨r, hr, le_trans hge hle⟩⟩)
    · exact Or.inr (Or.inr ⟨g, ts, hg, hts, Or.inr hrender⟩)

/-- A settled item stays settled through the rest of a cycle. -/
theorem refreshItems_preserves_settled (wid : Nat) (pairs : List (ItemEnv × Item))
    (S : List Post) (i : Item) (hs : settled wid S i) :
    settled wid (refreshItems wid pairs S).store i := by
  induction pairs generalizing S with
  | nil => exact hs
  | cons hd tl ih =>
    obtain ⟨e, j⟩ := hd
    by_cases hout : (refresh_item e wid S j).outcome = ItemOutcome.aborted
    · simp only [refreshItems, if_pos hout]
      exact step_preserves_settled e wid S i j hs
    · simp only [refreshItems, if_neg hout]
      exact ih _ (step_preserves_settled e wid S i j hs)

/-- Processing a settled item performs no sink call and leaves the store
unchanged, whatever the (successful) environment. -/
theorem settled_step (wid : Nat) (S : List Post) (item : Item) (hs : settled wid S item)
    (env : ItemEnv) (henv : envOk env) :
    ∃ out, refresh_item env wid S item = ⟨[], S, out⟩ := by
  obtain ⟨hl, hc, he, hi, hu⟩ := henv
  rcases hs with hg | hts | ⟨g, ts, hg, hts, hcase⟩
  · exact ⟨.err, by simp [refresh_item, hg]⟩
  · cases hg2 : item.guid with
    | none => exact ⟨.err, by simp [refresh_item, hg2]⟩
    | some g => exact ⟨.err, by simp [refresh_item, hg2, hts]⟩
  · rcases hcase with ⟨p, hfind, hge⟩ | hrender
    · exact ⟨.ok, by simp [refresh_item, hg, hts, hl, hfind, not_lt.mpr hge]⟩
    · cases hfind : S.find? (keyMatches wid g) with
      | some p =>
        by_cases hcmp : p.last_updated < ts
        · cases hemb : item_to_embed item with
          | ok e => exact absurd hemb (hrender e)
          | fail => exact ⟨.err, by simp [refresh_item, hg, hts, hl, hfind, hcmp, hemb]⟩
          | fatal => exact ⟨.aborted, by simp [refresh_item, hg, hts, hl, hfind, hcmp, hemb]⟩
        · exact ⟨.ok, by simp [refresh_item, hg, hts, hl, hfind, hcmp]⟩
      | none =>
        cases hemb : item_to_embed item with
        | ok e => exact absurd hemb (hrender e)
        | fail => exact ⟨.err, by simp [refresh_item, hg, hts, hl, hfind, hemb]⟩
        | fatal => exact ⟨.aborted, by simp [refresh_item, hg, hts, hl, hfind, hemb]⟩

/-- A panic during one item is deterministic: it depends only on the item
and the store, arises before any sink call or store write, and recurs for
any environment whose lookup succeeds. -/
theorem abort_deterministic (env env2 : ItemEnv) (wid : Nat) (S : List Post) (item : Item)
    (henv2 : envOk env2)
    (h : (refresh_item env wid S item).outcome = ItemOutcome.aborted) :
    refresh_item env2 wid S item = ⟨[], S, ItemOutcome.aborted⟩ := by
  obtain ⟨hl2, hc2, he2, hi2, hu2⟩ := henv2
  cases hg : item.guid with
  | none => simp [refresh_item, hg] at h
  | some g =>
  cases hts : item.pubDate with
  | none => simp [refresh_item, hg, hts] at h
  | some ts =>
  by_cases hl : env.lookupOk = false
  · simp [refresh_item, hg, hts, hl] at h
  · cases hfind : S.find? (keyMatches wid g) with
    | some p =>
      by_cases hcmp : p.last_updated < ts
      · cases hemb : item_to_embed item with
        | fatal => simp [refresh_item, hg, hts, hl2, hfind, hcmp, hemb]
        | fail => simp [refresh_item, hg, hts, hl, hfind, hcmp, hemb] at h
        | ok e =>
          by_cases he : env.editOk = false
          · simp [refresh_item, hg, hts, hl, hfind, hcmp, hemb, he] at h
          · by_cases hu : env.updateOk = false
            · simp [refresh_item, hg, hts, hl, hfind, hcmp, hemb, he, hu] at h
            · simp [refresh_item, hg, hts, hl, hfind, hcmp, hemb, he, hu] at h
      · simp [refresh_item, hg, hts, hl, hfind, hcmp] at h
    | none =>
      cases hemb : item_to_embed item with
      | fatal => simp [refresh_item, hg, hts, hl2, hfind, hemb]
      | fail => simp [refresh_item, hg, hts, hl, hfind, hemb] at h
      | ok e =>
        cases hcr : env.createResult with
        | none => simp [refresh_item, hg, hts, hl, hfind, hemb, hcr] at h
        | some mid =>
          by_cases hi : env.insertOk = false
          · simp [refresh_item, hg, hts, hl, hfind, hemb, hcr, hi] at h
          · simp [refresh_item, hg, hts, hl, hfind, hemb, hcr, hi] at h

/-- The inductive core of idempotence: running a cycle over the items a
first (all-success) cycle has just processed produces no sink call. -/
theorem C2_aux (wid : Nat) (pairs1 : List (ItemEnv × Item)) :
    ∀ (pairs2 : List (ItemEnv × Item)) (store : List Post),
      pairs1.map Prod.snd = pairs2.map Prod.snd →
      (∀ pr ∈ pairs1, envOk pr.1) → (∀ pr ∈ pairs2, envOk pr.1) →
      (refreshItems wid pairs2 (refreshItems wid pairs1 store).store).trace = [] := by
  induction pairs1 with
  | nil =>
    intro pairs2 store hfeed h1 h2
    have hp2 : pairs2 = [] := by simpa using hfeed.symm
    subst hp2
    rfl
  | cons hd tl ih =>
    intro pairs2 store hfeed h1 h2
    obtain ⟨e, i⟩ := hd
    cases pairs2 with
    | nil => exact absurd hfeed (by simp)
    | cons hd2 tl2 =>
      obtain ⟨e2, i2⟩ := hd2
      have hfeed2 : i = i2 ∧ tl.map Prod.snd = tl2.map Prod.snd := by simpa using hfeed
      obtain ⟨hi12, hfeedtl⟩ := hfeed2
      subst hi12
      have henv1 : envOk e := h1 (e, i) (by simp)
      have henvtl : ∀ pr ∈ tl, envOk pr.1 := fun pr hpr => h1 pr (by simp [hpr])
      have henv2 : envOk e2 := h2 (e2, i) (by simp)
      have henvtl2 : ∀ pr ∈ tl2, envOk pr.1 := fun pr hpr => h2 pr (by simp [hpr])
      by_cases hout : (refresh_item e wid store i).outcome = ItemOutcome.aborted
      · have habort1 := abort_deterministic e e wid store i henv1 hout
        have habort2 := abort_deterministic e e2 wid store i henv2 hout
        simp only [refreshItems, if_pos hout]
        rw [habort1]
        have hout2 : (refresh_item e2 wid store i).outcome = ItemOutcome.aborted := by
          rw [habort2]
        simp only [refreshItems, if_pos hout2]
        rw [habort2]
      · simp only [refreshItems, if_neg hout]
        have hset : settled wid
            (refreshItems wid tl (refresh_item e wid store i).store).store i :=
          refreshItems_preserves_settled wid tl _ i (step_settles e wid store i henv1)
        obtain ⟨out2, hstep2⟩ := settled_step wid _ i hset e2 henv2
        by_cases hout2 : (refresh_item e2 wid
            (refreshItems wid tl (refresh_item e wid store i).store).store i).outcome =
              ItemOutcome.aborted
        · simp only [refreshItems, if_pos hout2]
          rw [hstep2]
        · simp only [refreshItems, if_neg hout2]
          have hrec := ih tl2 ((refresh_item e wid store i).store) hfeedtl henvtl henvtl2
          rw [hstep2]
          simpa using hrec

/-- C2: for every feed and every starting store, running one
reconciliation cycle with all external calls succeeding and then a second
cycle over the unchanged feed against the store the first cycle left
produces zero messaging-sink calls in the second cycle. -/
theorem C2_idempotent (wid : Nat) (pairs1 pairs2 : List (ItemEnv × Item)) (store : List Post)
    (hfeed : pairs1.map Prod.snd = pairs2.map Prod.snd)
    (h1 : ∀ pr ∈ pairs1, envOk pr.1) (h2 : ∀ pr ∈ pairs2, envOk pr.1) :
    (refreshItems wid pairs2 (refreshItems wid pairs1 store).store).trace = [] :=
  C2_aux wid pairs1 pairs2 store hfeed h1 h2

/-- C2 witness: a two-item feed over an empty store; the second cycle is
silent. -/
theorem C2_idempotent_witness :
    (refreshItems 5 [(envEx, itemEx), (envEx, badItemEx)]
      (refreshItems 5 [(envEx, itemEx), (envEx, badItemEx)] []).store).trace = [] :=
  C2_idempotent 5 [(envEx, itemEx), (envEx, badItemEx)]
    [(envEx, itemEx), (envEx, badItemEx)] [] (by decide) (by decide) (by decide)

/-- C7 amended witness: concrete instantiation of all three clauses. -/
theorem C7_amended_witness :
    stripTimes ("xy".data ++ brbr ++ "tail".data) = "tail".data ∧
    stripTimes ("xy".data ++ brbr ++ "mid".data ++ brbr ++ "tail".data) = "tail".data ∧
    stripTimes "plain".data = "plain".data := by
  have h := C7_amended "xy".data "mid".data "tail".data (by decide) (by decide) (by decide)
  exact ⟨h.1, h.2.1, h.2.2 "plain".data (by decide)⟩

end Disbahn
